import Mathlib

/-!
Verification of the OCSF MCP server core (schema repository, event builder,
event validator, heuristic mapper) against its natural-language specification.

The Rust source is shallowly embedded:
* `serde_json::Value` becomes the inductive `Json` (numbers restricted to the
  naturals actually produced by the program);
* `HashMap` / `serde_json::Map` become association lists with
  insert-replaces-existing-key semantics (`assocInsert`); iteration order of a
  `std::collections::HashMap` is unspecified, so it is modelled as first
  insertion order, which the embedded code never sorts;
* machine integers (`u32`) become `Nat` with an explicit `% 2 ^ 32` at the one
  multiplication that could overflow;
* external effects are parameters: JSON-object parsing by `serde_json` is an
  explicit function argument, the current UTC timestamp and the freshly
  generated UUID are explicit string arguments, and the on-disk version store
  is an explicit association list of already parsed schema documents.
-/

namespace Ocsf

/-- Shallow embedding of `serde_json::Value`. -/
inductive Json where
  | null : Json
  | bool (b : Bool) : Json
  | num (n : Nat) : Json
  | str (s : String) : Json
  | arr (elems : List Json) : Json
  | obj (entries : List (String × Json)) : Json

/-! ## Association lists (model of `HashMap` and `serde_json::Map`) -/

/-- First-match lookup in an association list. -/
def assocLookup {α : Type} (m : List (String × α)) (k : String) : Option α :=
  match m with
  | [] => none
  | (k', v) :: rest => if k' = k then some v else assocLookup rest k

/-- Insert with replace-on-existing-key semantics (`HashMap::insert`). -/
def assocInsert {α : Type} (m : List (String × α)) (k : String) (v : α) :
    List (String × α) :=
  match m with
  | [] => [(k, v)]
  | (k', v') :: rest =>
      if k' = k then (k, v) :: rest else (k', v') :: assocInsert rest k v

/-- Insert every pair of `l` into `m`, in list order. -/
def insertList {α : Type} (m : List (String × α)) (l : List (String × α)) :
    List (String × α) :=
  l.foldl (fun acc kv => assocInsert acc kv.1 kv.2) m

/-- The keys of an association list are pairwise distinct. -/
def keysNodup {α : Type} (m : List (String × α)) : Prop :=
  (m.map Prod.fst).Nodup

theorem assocLookup_nil {α : Type} (k : String) :
    assocLookup ([] : List (String × α)) k = none := rfl

theorem assocLookup_cons {α : Type} (k' : String) (v : α) (rest : List (String × α))
    (k : String) :
    assocLookup ((k', v) :: rest) k = if k' = k then some v else assocLookup rest k := rfl

theorem assocLookup_assocInsert {α : Type} (m : List (String × α)) (k : String) (v : α)
    (k' : String) :
    assocLookup (assocInsert m k v) k' = if k = k' then some v else assocLookup m k' := by
  induction m with
  | nil => simp [assocInsert, assocLookup]
  | cons hd tl ih =>
      obtain ⟨k₀, v₀⟩ := hd
      by_cases h₀ : k₀ = k
      · subst h₀
        simp only [assocInsert, if_pos rfl]
        by_cases h₁ : k₀ = k'
        · subst h₁
          simp [assocLookup]
        · simp [assocLookup, h₁]
      · simp only [assocInsert, if_neg h₀]
        by_cases h₁ : k₀ = k'
        · subst h₁
          have hne : ¬ k = k₀ := fun hh => h₀ hh.symm
          simp [assocLookup, hne]
        · simp [assocLookup, h₁, ih]

theorem assocLookup_append {α : Type} (l₁ l₂ : List (String × α)) (k : String) :
    assocLookup (l₁ ++ l₂) k =
      match assocLookup l₁ k with
      | some v => some v
      | none => assocLookup l₂ k := by
  induction l₁ with
  | nil => simp [assocLookup]
  | cons hd tl ih =>
      obtain ⟨k₀, v₀⟩ := hd
      by_cases h : k₀ = k
      · simp [assocLookup, h]
      · simp [assocLookup, h, ih]

theorem assocLookup_eq_none_of_not_mem_keys {α : Type} {m : List (String × α)} {k : String}
    (h : k ∉ m.map Prod.fst) : assocLookup m k = none := by
  induction m with
  | nil => rfl
  | cons hd tl ih =>
      obtain ⟨k₀, v₀⟩ := hd
      simp only [List.map_cons, List.mem_cons] at h
      push_neg at h
      have hne : ¬ k₀ = k := fun hh => h.1 hh.symm
      simp [assocLookup, hne, ih h.2]

theorem mem_keys_assocInsert {α : Type} (m : List (String × α)) (k : String) (v : α)
    (a : String) :
    a ∈ (assocInsert m k v).map Prod.fst ↔ a ∈ m.map Prod.fst ∨ a = k := by
  induction m with
  | nil => simp [assocInsert]
  | cons hd tl ih =>
      obtain ⟨k₀, v₀⟩ := hd
      by_cases h : k₀ = k
      · subst h
        simp [assocInsert]
        tauto
      · simp only [assocInsert, if_neg h, List.map_cons, List.mem_cons, ih]
        tauto

theorem keysNodup_assocInsert {α : Type} {m : List (String × α)} (k : String) (v : α)
    (h : keysNodup m) : keysNodup (assocInsert m k v) := by
  induction m with
  | nil => simp [keysNodup, assocInsert]
  | cons hd tl ih =>
      obtain ⟨k₀, v₀⟩ := hd
      simp only [keysNodup, List.map_cons, List.nodup_cons] at h
      by_cases h₀ : k₀ = k
      · subst h₀
        simpa [keysNodup, assocInsert] using h
      · have ih' := ih h.2
        simp only [keysNodup, assocInsert, if_neg h₀, List.map_cons, List.nodup_cons]
        refine ⟨?_, ih'⟩
        rw [mem_keys_assocInsert]
        rintro (hmem | rfl)
        · exact h.1 hmem
        · exact h₀ rfl

theorem keysNodup_insertList {α : Type} (l : List (String × α)) :
    ∀ m : List (String × α), keysNodup m → keysNodup (insertList m l) := by
  induction l with
  | nil => intro m hm; simpa [insertList] using hm
  | cons hd tl ih =>
      intro m hm
      simpa [insertList] using ih (assocInsert m hd.1 hd.2) (keysNodup_assocInsert _ _ hm)

theorem assocLookup_insertList {α : Type} (l : List (String × α)) :
    ∀ (m : List (String × α)) (k : String),
      assocLookup (insertList m l) k =
        match assocLookup l.reverse k with
        | some v => some v
        | none => assocLookup m k := by
  induction l with
  | nil => intro m k; simp [insertList, assocLookup]
  | cons hd tl ih =>
      intro m k
      obtain ⟨k₀, v₀⟩ := hd
      have hstep : insertList m ((k₀, v₀) :: tl) = insertList (assocInsert m k₀ v₀) tl := by
        simp [insertList]
      rw [hstep, ih]
      rw [show ((k₀, v₀) :: tl).reverse = tl.reverse ++ [(k₀, v₀)] by simp]
      rw [assocLookup_append]
      cases assocLookup tl.reverse k with
      | some v => simp
      | none =>
          rw [assocLookup_assocInsert]
          by_cases h : k₀ = k <;> simp [assocLookup, h]

theorem assocLookup_reverse_of_nodup {α : Type} {m : List (String × α)}
    (h : keysNodup m) (k : String) : assocLookup m.reverse k = assocLookup m k := by
  induction m with
  | nil => rfl
  | cons hd tl ih =>
      obtain ⟨k₀, v₀⟩ := hd
      simp only [keysNodup, List.map_cons, List.nodup_cons] at h
      rw [List.reverse_cons, assocLookup_append, ih h.2]
      by_cases hk : k₀ = k
      · subst hk
        rw [assocLookup_eq_none_of_not_mem_keys h.1]
        simp [assocLookup]
      · cases htl : assocLookup tl k with
        | some v => simp [assocLookup, hk, htl]
        | none => simp [assocLookup, hk, htl]

theorem mem_iff_assocLookup_of_nodup {α : Type} {m : List (String × α)}
    (h : keysNodup m) (k : String) (v : α) :
    (k, v) ∈ m ↔ assocLookup m k = some v := by
  induction m with
  | nil => simp [assocLookup]
  | cons hd tl ih =>
      obtain ⟨k₀, v₀⟩ := hd
      simp only [keysNodup, List.map_cons, List.nodup_cons] at h
      by_cases hk : k₀ = k
      · subst hk
        simp only [assocLookup, if_pos rfl, List.mem_cons]
        constructor
        · rintro (heq | hmem)
          · rw [Prod.mk.injEq] at heq
            simp [heq.2]
          · exact absurd (List.mem_map_of_mem Prod.fst hmem) h.1
        · intro hv
          left
          simp only [if_true] at hv
          simp at hv
          rw [← hv]
      · simp only [assocLookup, if_neg hk, List.mem_cons, ih h.2]
        constructor
        · rintro (heq | hmem)
          · rw [Prod.mk.injEq] at heq
            exact absurd heq.1.symm hk
          · exact hmem
        · intro hlook
          exact Or.inr hlook

/-! ## String primitives

The Rust code uses `str::trim`, `str::split`, `str::starts_with`,
`str::to_lowercase`, `str::contains` and lexicographic `Ord` on strings.  These
are re-implemented over the character list of a `String` so that everything
reduces inside the kernel.  For the ASCII data handled by this program the
semantics coincide with the Rust primitives (UTF-8 byte order agrees with code
point order). -/

/-- ASCII-relevant whitespace test (model of `char::is_whitespace`). -/
def isWsChar (c : Char) : Bool := c = ' ' || c = '\t' || c = '\n' || c = '\r'

/-- Model of `str::trim`. -/
def trimChars (l : List Char) : List Char :=
  ((l.dropWhile isWsChar).reverse.dropWhile isWsChar).reverse

/-- Model of `str::trim` on `String`. -/
def strTrim (s : String) : String := String.mk (trimChars s.data)

/-- Model of `char::to_lowercase` for the ASCII identifiers this program handles. -/
def strLower (s : String) : String := String.mk (s.data.map Char.toLower)

/-- Model of `str::split(',')`, accumulator style. -/
def splitCommaAux (cur : List Char) (acc : List String) : List Char → List String
  | [] => acc ++ [String.mk cur.reverse]
  | c :: rest =>
      if c = ',' then splitCommaAux [] (acc ++ [String.mk cur.reverse]) rest
      else splitCommaAux (c :: cur) acc rest

/-- Model of `str::split(',')`. -/
def splitComma (s : String) : List String := splitCommaAux [] [] s.data

/-- Model of `str::starts_with('\x7b')`. -/
def headIsBrace (s : String) : Bool :=
  match s.data with
  | [] => false
  | c :: _ => c = '\x7b'

/-- `hasLead pat hay` holds when `pat` is an initial segment of `hay`. -/
def hasLead : List Char → List Char → Bool
  | [], _ => true
  | _ :: _, [] => false
  | p :: ps, h :: hs => p = h && hasLead ps hs

/-- `hasSub hay pat`: `pat` occurs as a contiguous run inside `hay`. -/
def hasSub (hay pat : List Char) : Bool :=
  match hay with
  | [] => pat.isEmpty
  | _ :: rest => hasLead pat hay || hasSub rest pat

/-- Model of `str::contains` for string patterns. -/
def strContains (s pat : String) : Bool := hasSub s.data pat.data

/-- Lexicographic comparison of character lists (model of byte-wise `Ord` on
`str`, identical on UTF-8 because byte order agrees with code point order). -/
def charsLe : List Char → List Char → Bool
  | [], _ => true
  | _ :: _, [] => false
  | x :: xs, y :: ys => if x < y then true else if y < x then false else charsLe xs ys

/-- Boolean string comparison used for sorting version identifiers. -/
def strLeB (a b : String) : Bool := charsLe a.data b.data

/-- Propositional form of `strLeB`, for use with `List.insertionSort`. -/
def strLe (a b : String) : Prop := strLeB a b = true

instance : DecidableRel strLe := fun a b => inferInstanceAs (Decidable (strLeB a b = true))

theorem charsLe_refl (l : List Char) : charsLe l l = true := by
  induction l with
  | nil => rfl
  | cons hd tl ih => simp [charsLe, ih]

theorem charsLe_total (a b : List Char) : charsLe a b = true ∨ charsLe b a = true := by
  induction a generalizing b with
  | nil => left; rfl
  | cons x xs ih =>
      cases b with
      | nil => right; rfl
      | cons y ys =>
          rcases lt_trichotomy x y with h | h | h
          · left; simp [charsLe, h]
          · subst h
            rcases ih ys with h' | h'
            · left; simp [charsLe, lt_irrefl, h']
            · right; simp [charsLe, lt_irrefl, h']
          · right; simp [charsLe, h]

theorem charsLe_trans {a b c : List Char} (hab : charsLe a b = true)
    (hbc : charsLe b c = true) : charsLe a c = true := by
  induction a generalizing b c with
  | nil => rfl
  | cons x xs ih =>
      cases b with
      | nil => simp [charsLe] at hab
      | cons y ys =>
          cases c with
          | nil => simp [charsLe] at hbc
          | cons z zs =>
              simp only [charsLe] at hab hbc ⊢
              rcases lt_trichotomy x y with hxy | hxy | hxy
              · rcases lt_trichotomy y z with hyz | hyz | hyz
                · simp [lt_trans hxy hyz]
                · subst hyz; simp [hxy]
                · rw [if_neg (lt_asymm hyz), if_pos hyz] at hbc
                  exact absurd hbc (by decide)
              · subst hxy
                rcases lt_trichotomy x z with hxz | hxz | hxz
                · simp [hxz]
                · subst hxz
                  simp only [if_neg (lt_irrefl x)] at hab hbc ⊢
                  exact ih hab hbc
                · rw [if_neg (lt_asymm hxz), if_pos hxz] at hbc
                  exact absurd hbc (by decide)
              · rw [if_neg (lt_asymm hxy), if_pos hxy] at hab
                exact absurd hab (by decide)

instance : IsTotal String strLe :=
  ⟨fun a b => charsLe_total a.data b.data⟩

instance : IsTrans String strLe :=
  ⟨fun _ _ _ hab hbc => charsLe_trans hab hbc⟩

theorem strLe_refl (s : String) : strLe s s := charsLe_refl s.data

/-! ## Schema data model (src/ocsf/schema.rs) -/

/-- OCSF attribute definition (struct `Attribute`). -/
structure Attribute where
  caption : Option String := none
  description : Option String := none
  data_type : Option String := none
  requirement : Option String := none
  type_name : Option String := none

/-- OCSF event class (struct `EventClass`).  The Rust field `extends` is named
`extendsName` here because `extends` is reserved in Lean. -/
structure EventClass where
  uid : Nat
  name : String
  caption : Option String := none
  description : Option String := none
  category : String
  attributes : List (String × Attribute) := []
  extendsName : Option String := none

/-- OCSF object definition (struct `Object`). -/
structure Object where
  name : String
  caption : Option String := none
  description : Option String := none
  attributes : List (String × Attribute) := []
  extendsName : Option String := none

/-- OCSF type definition (struct `TypeDef`). -/
structure TypeDef where
  caption : Option String := none
  description : Option String := none

/-- OCSF schema document (struct `OcsfSchema`). -/
structure OcsfSchema where
  version : String
  classes : List (String × EventClass)
  objects : List (String × Object) := []
  types : List (String × TypeDef) := []
  dictionary_attributes : List (String × Attribute) := []

/-- Per-category summary (struct `CategorySummary`). -/
structure CategorySummary where
  name : String
  description : String
  event_count : Nat
  event_classes : List String
  deriving DecidableEq

/-- Per-class summary (struct `EventClassSummary`). -/
structure EventClassSummary where
  uid : Nat
  name : String
  caption : String
  description : String
  category : String

/-- `OcsfSchema::minimal_schema`: the built-in fallback document. -/
def minimal_schema : OcsfSchema :=
  { version := "1.7.0-dev"
    classes :=
      [ ("authentication",
         { uid := 3002, name := "authentication", caption := some "Authentication"
           description := some "User authentication events (login, logout, failed attempts)"
           category := "iam" })
      , ("process_activity",
         { uid := 1007, name := "process_activity", caption := some "Process Activity"
           description := some "Process lifecycle events (start, stop, injection)"
           category := "system" })
      , ("file_activity",
         { uid := 1001, name := "file_activity", caption := some "File Activity"
           description := some "File system operations"
           category := "system" })
      , ("network_activity",
         { uid := 4001, name := "network_activity", caption := some "Network Activity"
           description := some "Network connections and traffic"
           category := "network" }) ] }

/-- `OcsfSchema::load_version`.  The on-disk document store is modelled as an
association list from version identifier to the already parsed schema document
(reading and `serde_json` parsing of a stored file are external effects).  A
stored version is returned as parsed; an absent version falls back to
`minimal_schema`.  The `Except String` mirrors the `anyhow::Result` signature. -/
def load_version (store : List (String × OcsfSchema)) (version : String) :
    Except String OcsfSchema :=
  match assocLookup store version with
  | some schema => .ok schema
  | none => .ok minimal_schema

/-- `OcsfSchema::list_versions`.  The directory of schema files is modelled as
`Option (List String)`: `none` when the directory does not exist (the code then
falls back to the single embedded version), `some names` for the stored
version identifiers, which are sorted lexicographically (`versions.sort()`). -/
def list_versions (dir : Option (List String)) : List String :=
  match dir with
  | none => ["1.7.0-dev"]
  | some names => List.insertionSort strLe names

/-- The stability filter inside `OcsfSchema::get_newest_stable_version`. -/
def isStableVersion (v : String) : Bool :=
  !(strContains (strLower v) "dev") && !(strContains (strLower v) "alpha") &&
    !(strContains (strLower v) "beta") && !(strContains (strLower v) "rc")

/-- `OcsfSchema::get_newest_stable_version`. -/
def get_newest_stable_version (dir : Option (List String)) : Except String String :=
  let stable := (list_versions dir).filter isStableVersion
  match stable.getLast? with
  | some v => .ok v
  | none => .error "No stable OCSF versions found"

/-- `OcsfSchema::get_event_class`. -/
def get_event_class (schema : OcsfSchema) (name : String) : Option EventClass :=
  assocLookup schema.classes name

/-- One step of the grouping loop in `OcsfSchema::list_categories`:
`category_map.entry(category).or_default().push(name)`. -/
def pushCategory (acc : List (String × List String)) (cat : String) (clsName : String) :
    List (String × List String) :=
  match acc with
  | [] => [(cat, [clsName])]
  | (c, ns) :: rest =>
      if c = cat then (c, ns ++ [clsName]) :: rest
      else (c, ns) :: pushCategory rest cat clsName

/-- The grouping loop of `OcsfSchema::list_categories`.  Iteration order of the
Rust `HashMap` is unspecified; it is modelled as first-insertion order.  The
code performs no sorting. -/
def buildCategoryMap (classes : List (String × EventClass)) : List (String × List String) :=
  classes.foldl
    (fun acc nc => if nc.1 = "base_event" then acc else pushCategory acc nc.2.category nc.1)
    []

/-- `get_category_description` (the fixed static table at the bottom of
schema.rs). -/
def get_category_description (category : String) : String :=
  if category = "system" then "System Activity - Operating system and device-level events"
  else if category = "findings" then
    "Findings - Security findings from scanning, detection, and analysis"
  else if category = "iam" then
    "Identity & Access Management - Authentication, authorization, and account management"
  else if category = "network" then "Network Activity - Network connections and traffic"
  else if category = "discovery" then "Discovery - Resource and asset discovery"
  else if category = "application" then "Application Activity - Application-specific events"
  else if category = "remediation" then "Remediation - Security remediation activities"
  else if category = "other" then "Other - Miscellaneous events"
  else "Category: " ++ category

/-- `OcsfSchema::list_categories`. -/
def list_categories (schema : OcsfSchema) : List CategorySummary :=
  (buildCategoryMap schema.classes).map fun p =>
    { name := p.1
      description := get_category_description p.1
      event_count := p.2.length
      event_classes := p.2 }

/-- `OcsfSchema::get_required_attributes`. -/
def get_required_attributes (schema : OcsfSchema) (event_class : String) : List String :=
  match assocLookup schema.classes event_class with
  | some ec =>
      (ec.attributes.filter fun p =>
        decide (p.2.requirement = some "required") ||
          decide (p.2.requirement = some "recommended")).map Prod.fst
  | none => []

/-! ## Event model (src/ocsf/event.rs) -/

/-- Struct `ProductInfo`. -/
structure ProductInfo where
  name : String
  vendor_name : String
  version : Option String

/-- Struct `EventMetadata`.  `category_uid` and `class_uid` are `u32` in Rust;
the values the program produces fit in `Nat` without wrap. -/
structure EventMetadata where
  version : String
  product : Option ProductInfo
  uid : String
  event_class : String
  category_uid : Nat
  class_uid : Nat

/-- Struct `OcsfEvent`: fixed metadata plus a flattened ordered field map. -/
structure OcsfEvent where
  metadata : EventMetadata
  fields : List (String × Json)

/-- `OcsfEvent::new`.  The freshly generated UUID (`Uuid::new_v4`) is an
external effect, passed in as `fresh_uid`. -/
def OcsfEvent.new (event_class : String) (class_uid category_uid : Nat)
    (fresh_uid : String) : OcsfEvent :=
  { metadata :=
      { version := "1.7.0-dev"
        product := none
        uid := fresh_uid
        event_class := event_class
        category_uid := category_uid
        class_uid := class_uid }
    fields := [] }

/-- `OcsfEvent::set_field`. -/
def OcsfEvent.set_field (e : OcsfEvent) (key : String) (value : Json) : OcsfEvent :=
  { e with fields := assocInsert e.fields key value }

/-! ## Event validation (src/ocsf/validation.rs) -/

/-- Enum `ErrorType`. -/
inductive ErrorType where
  | MissingRequired : ErrorType
  | InvalidType : ErrorType
  | InvalidValue : ErrorType
  | UnknownField : ErrorType
  deriving DecidableEq

/-- Struct `ValidationError`. -/
structure ValidationError where
  field : String
  message : String
  error_type : ErrorType

/-- Struct `ValidationWarning`. -/
structure ValidationWarning where
  field : String
  message : String

/-- Struct `ValidationReport`. -/
structure ValidationReport where
  is_valid : Bool
  errors : List ValidationError
  warnings : List ValidationWarning
  event_class : Option String
  summary : String

/-- `ValidationReport::new`. -/
def ValidationReport.new (is_valid : Bool) (event_class : Option String) :
    ValidationReport :=
  { is_valid := is_valid
    errors := []
    warnings := []
    event_class := event_class
    summary := if is_valid then "Event is valid OCSF" else "Event has validation errors" }

/-- `ValidationReport::add_error`. -/
def ValidationReport.add_error (r : ValidationReport) (field message : String)
    (error_type : ErrorType) : ValidationReport :=
  { r with
      errors := r.errors ++ [{ field := field, message := message, error_type := error_type }]
      is_valid := false }

/-- `serde_json::Value::get` on an object (returns `None` on non-objects). -/
def jsonGet (j : Json) (k : String) : Option Json :=
  match j with
  | .obj entries => assocLookup entries k
  | _ => none

/-- `serde_json::Value::as_str`. -/
def jsonAsStr : Json → Option String
  | .str s => some s
  | _ => none

/-- `validate_event`, applied to the already parsed event document (the
`serde_json::from_str` step is external; non-JSON input is a parse error
before this function runs). -/
def validate_event (event : Json) : ValidationReport :=
  let report := ValidationReport.new true none
  let report :=
    match jsonGet event "metadata" with
    | some metadata =>
        let report :=
          match (jsonGet metadata "event_class").bind jsonAsStr with
          | some ec => { report with event_class := some ec }
          | none =>
              report.add_error "metadata.event_class" "Missing event_class in metadata"
                .MissingRequired
        if (jsonGet metadata "version").isNone then
          report.add_error "metadata.version" "Missing version in metadata" .MissingRequired
        else report
    | none => report.add_error "metadata" "Missing metadata field" .MissingRequired
  let report :=
    if (jsonGet event "time").isNone then
      report.add_error "time" "Missing required \x27time\x27 field" .MissingRequired
    else report
  if report.is_valid then
    { report with
        summary :=
          "Valid OCSF event of class \x27" ++ (report.event_class.getD "unknown") ++ "\x27" }
  else
    { report with
        summary :=
          "Validation failed with " ++ toString report.errors.length ++ " error(s)" }

/-! ## Mapper (src/tools/mapper.rs) -/

/-- Struct `MapCustomRequest`. -/
structure MapCustomRequest where
  sample_log : String
  suggested_class : Option String

/-- Struct `FieldMapping`. -/
structure FieldMapping where
  source_field : String
  ocsf_field : String
  transformation : Option String

/-- Struct `MappingRecommendation`. -/
structure MappingRecommendation where
  suggested_event_class : String
  confidence : String
  field_mappings : List FieldMapping
  explanation : String

/-- `map_custom_to_ocsf` (the final `serde_json::to_string_pretty` is external
serialization; the recommendation record itself is returned). -/
def map_custom_to_ocsf (request : MapCustomRequest) : MappingRecommendation :=
  let event_class :=
    match request.suggested_class with
    | some suggested => suggested
    | none =>
        if strContains (strLower request.sample_log) "login" ||
            strContains (strLower request.sample_log) "auth" then
          "authentication"
        else if strContains (strLower request.sample_log) "process" ||
            strContains (strLower request.sample_log) "exec" then
          "process_activity"
        else if strContains (strLower request.sample_log) "network" ||
            strContains (strLower request.sample_log) "connection" then
          "network_activity"
        else if strContains (strLower request.sample_log) "file" ||
            strContains (strLower request.sample_log) "path" then
          "file_activity"
        else "unknown"
  let mappings : List FieldMapping :=
    [ { source_field := "timestamp", ocsf_field := "time"
        transformation := some "Convert to ISO 8601 format" }
    , { source_field := "username", ocsf_field := "user.name", transformation := none }
    , { source_field := "user_id", ocsf_field := "user.uid", transformation := none } ]
  { suggested_event_class := event_class
    confidence := "medium"
    field_mappings := mappings
    explanation :=
      "Based on log content analysis, suggested OCSF event class is \x27" ++ event_class ++
        "\x27. Map your fields to OCSF attributes for standardization. " ++
        "Confidence is medium - please review and adjust as needed." }

/-! ## Event generator (src/tools/event_generator.rs) -/

/-- Struct `GenerateEventRequest`. -/
structure GenerateEventRequest where
  version : Option String
  event_class : String
  required_fields : String
  optional_fields : Option String

/-- Error outcomes of `generate_ocsf_event`; each constructor corresponds to
one `anyhow!` message in the source (`Event class not found`,
`Invalid JSON in required_fields / optional_fields`, schema load failure). -/
inductive GenError where
  | eventClassNotFound (name : String) : GenError
  | invalidFieldSource (source : String) (msg : String) : GenError
  | schemaLoadFailed (msg : String) : GenError

/-- The external `serde_json::from_str::<HashMap<String, Value>>` step: given
the raw text, either the entries of the parsed JSON object or a parse-error
message. -/
def JsonObjSource : Type := String → Except String (List (String × Json))

/-- Building a `HashMap` from parsed entries: later duplicate keys overwrite
earlier ones. -/
def normalizeMap (l : List (String × Json)) : List (String × Json) :=
  insertList [] l

/-- The default-value table of the required-field comma branch
(event_generator.rs lines 48-56).  `type_uid` is computed in `u32`, hence the
explicit wrap. -/
def requiredDefaultValue (now : String) (uid : Nat) (field_name : String) : Json :=
  if field_name = "activity_id" then .num 1
  else if field_name = "category_uid" then .num (uid / 1000)
  else if field_name = "class_uid" then .num uid
  else if field_name = "severity_id" then .num 1
  else if field_name = "type_uid" then .num ((uid * 100 + 1) % 4294967296)
  else if field_name = "time" then .str now
  else .str ("default_" ++ field_name)

/-- The default-value table of the optional-field comma branch
(event_generator.rs lines 74-78). -/
def optionalDefaultValue (field_name : String) : Json :=
  if field_name = "message" then .str "Generated OCSF event"
  else if field_name = "user" then
    .obj [("name", .str "example_user"), ("uid", .str "1001")]
  else .str ("default_" ++ field_name)

/-- The comma-separated branch shared by both field sources: split on commas,
trim, drop empties, insert the synthesized default for each bare name. -/
def commaListFields (defaultOf : String → Json) (raw : String) : List (String × Json) :=
  ((splitComma raw).map strTrim).foldl
    (fun acc n => if n = "" then acc else assocInsert acc n (defaultOf n)) []

/-- The required-field source of `generate_ocsf_event` (lines 38-61): JSON
object when the trimmed text starts with a brace, comma list of bare names
otherwise. -/
def parseRequiredFields (p : JsonObjSource) (now : String) (uid : Nat) (raw : String) :
    Except GenError (List (String × Json)) :=
  if headIsBrace (strTrim raw) then
    match p raw with
    | .ok entries => .ok (normalizeMap entries)
    | .error e => .error (.invalidFieldSource "required_fields" e)
  else .ok (commaListFields (requiredDefaultValue now uid) raw)

/-- The optional-field source of `generate_ocsf_event` (lines 63-86). -/
def parseOptionalFields (p : JsonObjSource) (opt : Option String) :
    Except GenError (List (String × Json)) :=
  match opt with
  | none => .ok []
  | some o =>
      if headIsBrace (strTrim o) then
        match p o with
        | .ok entries => .ok (normalizeMap entries)
        | .error e => .error (.invalidFieldSource "optional_fields" e)
      else .ok (commaListFields optionalDefaultValue o)

/-- The two `for (key, value) in ... \x7b event.set_field(...) \x7d` loops. -/
def insertFields (e : OcsfEvent) (l : List (String × Json)) : OcsfEvent :=
  l.foldl (fun ev kv => ev.set_field kv.1 kv.2) e

/-- `generate_ocsf_event`.  External effects are parameters: `store` is the
version store of parsed schema documents, `p` the `serde_json` object parser,
`now` the RFC3339 rendering of the current UTC time, `fresh_uid` the generated
UUID.  The final `to_json` pretty-printing is external serialization; the
constructed event itself is returned. -/
def generate_ocsf_event (store : List (String × OcsfSchema)) (p : JsonObjSource)
    (now fresh_uid : String) (request : GenerateEventRequest) :
    Except GenError OcsfEvent :=
  let version := request.version.getD "1.7.0-dev"
  match load_version store version with
  | .error e => .error (.schemaLoadFailed e)
  | .ok schema =>
    match assocLookup schema.classes request.event_class with
    | none => .error (.eventClassNotFound request.event_class)
    | some ec =>
      match parseRequiredFields p now ec.uid request.required_fields with
      | .error e => .error e
      | .ok req_fields =>
        match parseOptionalFields p request.optional_fields with
        | .error e => .error e
        | .ok opt_fields =>
          let category_uid := ec.uid / 1000
          let event := OcsfEvent.new request.event_class ec.uid category_uid fresh_uid
          let event := insertFields event req_fields
          let event := insertFields event opt_fields
          let event :=
            if (assocLookup event.fields "time").isNone then
              event.set_field "time" (.str now)
            else event
          .ok event

/-! ## Generic facts about the generator -/

/-- An object source that always fails; used to instantiate theorems at
requests whose field sources are comma lists (the parser is then never
consulted). -/
def nullObjSource : JsonObjSource := fun _ => .error "no JSON object"

/-- Projection of a generator result for stating closed corollaries. -/
def eventOrDefault (r : Except GenError OcsfEvent) : OcsfEvent :=
  match r with
  | .ok ev => ev
  | .error _ => OcsfEvent.new "" 0 0 ""

theorem insertFields_eq (l : List (String × Json)) :
    ∀ e : OcsfEvent,
      insertFields e l = { metadata := e.metadata, fields := insertList e.fields l } := by
  induction l with
  | nil => intro e; simp [insertFields, insertList]
  | cons hd tl ih =>
      intro e
      have h1 : insertFields e (hd :: tl) = insertFields (e.set_field hd.1 hd.2) tl := by
        simp [insertFields]
      have h2 : insertList e.fields (hd :: tl) =
          insertList (assocInsert e.fields hd.1 hd.2) tl := by
        simp [insertList]
      rw [h1, h2, ih]
      rfl

/-- Characterization of every successful run of `generate_ocsf_event`. -/
theorem generate_ok_elim {store : List (String × OcsfSchema)} {p : JsonObjSource}
    {now fresh_uid : String} {request : GenerateEventRequest} {ev : OcsfEvent}
    (h : generate_ocsf_event store p now fresh_uid request = .ok ev) :
    ∃ schema ec rm om,
      load_version store (request.version.getD "1.7.0-dev") = .ok schema ∧
      assocLookup schema.classes request.event_class = some ec ∧
      parseRequiredFields p now ec.uid request.required_fields = .ok rm ∧
      parseOptionalFields p request.optional_fields = .ok om ∧
      ev.metadata =
        { version := "1.7.0-dev", product := none, uid := fresh_uid
          event_class := request.event_class
          category_uid := ec.uid / 1000, class_uid := ec.uid } ∧
      ev.fields =
        (if (assocLookup (insertList (insertList [] rm) om) "time").isNone then
          assocInsert (insertList (insertList [] rm) om) "time" (.str now)
        else insertList (insertList [] rm) om) := by
  unfold generate_ocsf_event at h
  dsimp only at h
  cases hload : load_version store (request.version.getD "1.7.0-dev") with
  | error e => rw [hload] at h; cases h
  | ok schema =>
      rw [hload] at h
      dsimp only at h
      cases hcls : assocLookup schema.classes request.event_class with
      | none => rw [hcls] at h; cases h
      | some ec =>
          rw [hcls] at h
          dsimp only at h
          cases hreq : parseRequiredFields p now ec.uid request.required_fields with
          | error e => rw [hreq] at h; cases h
          | ok rm =>
              rw [hreq] at h
              dsimp only at h
              cases hopt : parseOptionalFields p request.optional_fields with
              | error e => rw [hopt] at h; cases h
              | ok om =>
                  rw [hopt] at h
                  dsimp only at h
                  simp only [Except.ok.injEq] at h
                  refine ⟨schema, ec, rm, om, rfl, by simp [hcls], by simp [hreq],
                    by simp [hopt], ?_, ?_⟩
                  · rw [← h]
                    split <;>
                      simp [OcsfEvent.set_field, insertFields_eq, OcsfEvent.new, insertList]
                  · rw [← h]
                    simp only [insertFields_eq, OcsfEvent.new]
                    split <;> simp_all [OcsfEvent.set_field, insertList]

/-- C1: every event constructed by `generate_ocsf_event` satisfies
`metadata.category_uid = metadata.class_uid / 1000` (integer division),
independently of any caller-supplied category value in the field sources. -/
theorem generated_event_category_uid_invariant (store : List (String × OcsfSchema))
    (p : JsonObjSource) (now fresh_uid : String) (request : GenerateEventRequest)
    (ev : OcsfEvent) (h : generate_ocsf_event store p now fresh_uid request = .ok ev) :
    ev.metadata.category_uid = ev.metadata.class_uid / 1000 := by
  obtain ⟨schema, ec, rm, om, -, -, -, -, hmeta, -⟩ := generate_ok_elim h
  rw [hmeta]

/-- Witness for C1 at a concrete request (class resolved from the fallback
minimal schema; a caller-supplied `category_uid` of 999 does not change the
metadata). -/
theorem generated_event_category_uid_invariant_witness :
    (eventOrDefault (generate_ocsf_event [] nullObjSource "T" "U"
      { version := none, event_class := "authentication"
        required_fields := "category_uid", optional_fields := none })).metadata.category_uid =
    (eventOrDefault (generate_ocsf_event [] nullObjSource "T" "U"
      { version := none, event_class := "authentication"
        required_fields := "category_uid", optional_fields := none })).metadata.class_uid
      / 1000 :=
  generated_event_category_uid_invariant [] nullObjSource "T" "U"
    { version := none, event_class := "authentication"
      required_fields := "category_uid", optional_fields := none } _ rfl

/-- C10: the constructed event's `metadata.version` is the literal
`"1.7.0-dev"`, whatever version the caller requested and whatever version the
loaded schema document carries. -/
theorem generated_event_version_literal (store : List (String × OcsfSchema))
    (p : JsonObjSource) (now fresh_uid : String) (request : GenerateEventRequest)
    (ev : OcsfEvent) (h : generate_ocsf_event store p now fresh_uid request = .ok ev) :
    ev.metadata.version = "1.7.0-dev" := by
  obtain ⟨schema, ec, rm, om, -, -, -, -, hmeta, -⟩ := generate_ok_elim h
  rw [hmeta]

/-- Witness for C10: a request for version `"9.9.9"` against a store whose
only document declares version `"somethingelse"` still yields
`metadata.version = "1.7.0-dev"`. -/
theorem generated_event_version_literal_witness :
    (eventOrDefault (generate_ocsf_event
      [("9.9.9", { version := "somethingelse", classes := minimal_schema.classes })]
      nullObjSource "T" "U"
      { version := some "9.9.9", event_class := "authentication"
        required_fields := "status", optional_fields := none })).metadata.version =
    "1.7.0-dev" :=
  generated_event_version_literal
    [("9.9.9", { version := "somethingelse", classes := minimal_schema.classes })]
    nullObjSource "T" "U"
    { version := some "9.9.9", event_class := "authentication"
      required_fields := "status", optional_fields := none } _ rfl

/-- C5: `load_version` never fails; a stored version is returned as parsed and
an absent version yields the fixed minimal schema, whose class table is
exactly the four built-in classes with empty attribute maps. -/
theorem load_version_never_fails (store : List (String × OcsfSchema)) (v : String) :
    (∃ s, load_version store v = .ok s) ∧
    (∀ s, assocLookup store v = some s → load_version store v = .ok s) ∧
    (assocLookup store v = none →
      load_version store v = .ok minimal_schema ∧
      minimal_schema.classes.map (fun c => (c.1, c.2.uid, c.2.category, c.2.attributes)) =
        [("authentication", 3002, "iam", []), ("process_activity", 1007, "system", []),
         ("file_activity", 1001, "system", []), ("network_activity", 4001, "network", [])]) := by
  refine ⟨?_, ?_, ?_⟩
  · unfold load_version
    cases assocLookup store v <;> exact ⟨_, rfl⟩
  · intro s hs
    unfold load_version
    rw [hs]
  · intro hn
    refine ⟨?_, rfl⟩
    unfold load_version
    rw [hn]

/-- Witness for C5: loading an unknown version from an empty store yields the
minimal schema. -/
theorem load_version_never_fails_witness :
    load_version [] "99.99.99" = .ok minimal_schema :=
  ((load_version_never_fails [] "99.99.99").2.2 rfl).1

/-- C9: `get_required_attributes` returns exactly the attribute names whose
requirement level is `required` or `recommended`, and the empty list (not an
error) for an unknown class. -/
theorem required_attributes_policy (schema : OcsfSchema) (cls : String) :
    (assocLookup schema.classes cls = none → get_required_attributes schema cls = []) ∧
    (∀ ec, assocLookup schema.classes cls = some ec →
      ∀ a, a ∈ get_required_attributes schema cls ↔
        ∃ attr, (a, attr) ∈ ec.attributes ∧
          (attr.requirement = some "required" ∨ attr.requirement = some "recommended")) := by
  constructor
  · intro h
    unfold get_required_attributes
    rw [h]
  · intro ec hec a
    unfold get_required_attributes
    rw [hec]
    simp only [List.mem_map, List.mem_filter]
    constructor
    · rintro ⟨⟨a', attr⟩, ⟨hmem, hpred⟩, rfl⟩
      refine ⟨attr, hmem, ?_⟩
      simpa using hpred
    · rintro ⟨attr, hmem, hreq⟩
      exact ⟨(a, attr), ⟨hmem, by simpa using hreq⟩, rfl⟩

/-- A schema whose only class carries a single attribute at requirement level
`recommended`; used to witness the `required`/`recommended` policy. -/
def recommendedOnlySchema : OcsfSchema :=
  { version := "v"
    classes :=
      [ ("login",
         { uid := 3002, name := "login", category := "iam"
           attributes := [("roles", { requirement := some "recommended" })] }) ] }

/-- Witness for C9: a class whose only attribute is `recommended` includes
that attribute. -/
theorem required_attributes_policy_witness :
    "roles" ∈ get_required_attributes recommendedOnlySchema "login" :=
  ((required_attributes_policy recommendedOnlySchema "login").2
    { uid := 3002, name := "login", category := "iam"
      attributes := [("roles", { requirement := some "recommended" })] } rfl "roles").mpr
    ⟨{ requirement := some "recommended" }, List.mem_singleton.mpr rfl, Or.inr rfl⟩

/-- C7: the mapper returns a caller-supplied hint verbatim, otherwise applies
the fixed priority-ordered case-insensitive keyword rules, and always returns
confidence `"medium"` with the same three input-independent field mappings. -/
theorem mapper_fixed_behavior (request : MapCustomRequest) :
    (map_custom_to_ocsf request).confidence = "medium" ∧
    (map_custom_to_ocsf request).field_mappings =
      [ { source_field := "timestamp", ocsf_field := "time"
          transformation := some "Convert to ISO 8601 format" }
      , { source_field := "username", ocsf_field := "user.name", transformation := none }
      , { source_field := "user_id", ocsf_field := "user.uid", transformation := none } ] ∧
    (∀ hint, request.suggested_class = some hint →
      (map_custom_to_ocsf request).suggested_event_class = hint) ∧
    (request.suggested_class = none →
      (map_custom_to_ocsf request).suggested_event_class =
        (if strContains (strLower request.sample_log) "login" ||
            strContains (strLower request.sample_log) "auth" then "authentication"
         else if strContains (strLower request.sample_log) "process" ||
            strContains (strLower request.sample_log) "exec" then "process_activity"
         else if strContains (strLower request.sample_log) "network" ||
            strContains (strLower request.sample_log) "connection" then "network_activity"
         else if strContains (strLower request.sample_log) "file" ||
            strContains (strLower request.sample_log) "path" then "file_activity"
         else "unknown")) := by
  refine ⟨rfl, rfl, ?_, ?_⟩
  · intro hint hh
    simp [map_custom_to_ocsf, hh]
  · intro hh
    simp [map_custom_to_ocsf, hh]

/-- Witness for C7 on the sample input of the specification. -/
theorem mapper_fixed_behavior_witness :
    (map_custom_to_ocsf
      { sample_log := "user login failed", suggested_class := none }).suggested_event_class =
      "authentication" ∧
    (map_custom_to_ocsf
      { sample_log := "user login failed", suggested_class := none }).confidence = "medium" := by
  have h := mapper_fixed_behavior { sample_log := "user login failed", suggested_class := none }
  exact ⟨(h.2.2.2 rfl).trans rfl, h.1⟩

/-- In a list sorted by `strLe`, the last element bounds every member. -/
theorem sorted_le_getLast {l : List String} (hs : List.Pairwise strLe l) :
    ∀ {v w : String}, l.getLast? = some v → w ∈ l → strLe w v := by
  induction l with
  | nil => intro v w hv hw; cases hw
  | cons a t ih =>
      intro v w hv hw
      cases t with
      | nil =>
          simp only [List.getLast?_singleton, Option.some_inj] at hv
          rcases List.mem_singleton.mp hw with rfl
          rw [← hv]
          exact strLe_refl w
      | cons b t' =>
          rw [List.getLast?_cons_cons] at hv
          have hvmem : v ∈ b :: t' := by
            have hopt : v ∈ (b :: t').getLast? := by
              rw [Option.mem_def]
              exact hv
            obtain ⟨hne, heq⟩ := List.mem_getLast?_eq_getLast hopt
            rw [heq]
            exact List.getLast_mem hne
          rcases List.mem_cons.mp hw with rfl | hw'
          · exact (List.pairwise_cons.mp hs).1 v hvmem
          · exact ih (List.pairwise_cons.mp hs).2 hv hw'

/-- C6: a version returned by `get_newest_stable_version` passes the
stability filter (its lowercase form contains none of `dev`, `alpha`, `beta`,
`rc`), belongs to the filtered sorted version list, and bounds every survivor
(lexicographically last); the `NoStableVersion` error occurs exactly when no
identifier survives the filter. -/
theorem newest_stable_version_spec (dir : Option (List String)) :
    (∀ v, get_newest_stable_version dir = .ok v →
      isStableVersion v = true ∧
      strContains (strLower v) "dev" = false ∧
      strContains (strLower v) "alpha" = false ∧
      strContains (strLower v) "beta" = false ∧
      strContains (strLower v) "rc" = false ∧
      v ∈ (list_versions dir).filter isStableVersion ∧
      ∀ w ∈ (list_versions dir).filter isStableVersion, strLe w v) ∧
    (get_newest_stable_version dir = .error "No stable OCSF versions found" ↔
      (list_versions dir).filter isStableVersion = []) := by
  have hsorted : List.Pairwise strLe (list_versions dir) := by
    cases dir with
    | none => simp [list_versions]
    | some names => exact List.sorted_insertionSort strLe names
  have hsortedf : List.Pairwise strLe ((list_versions dir).filter isStableVersion) :=
    hsorted.filter isStableVersion
  constructor
  · intro v hv
    unfold get_newest_stable_version at hv
    dsimp only at hv
    cases hlast : ((list_versions dir).filter isStableVersion).getLast? with
    | none => rw [hlast] at hv; cases hv
    | some u =>
        rw [hlast] at hv
        simp only [Except.ok.injEq] at hv
        subst hv
        have hmem : u ∈ (list_versions dir).filter isStableVersion := by
          have hopt : u ∈ ((list_versions dir).filter isStableVersion).getLast? := by
            rw [Option.mem_def]
            exact hlast
          obtain ⟨hne, heq⟩ := List.mem_getLast?_eq_getLast hopt
          rw [heq]
          exact List.getLast_mem hne
        have hstable : isStableVersion u = true := (List.mem_filter.mp hmem).2
        have hparts := hstable
        simp only [isStableVersion, Bool.and_eq_true, Bool.not_eq_true'] at hparts
        exact ⟨hstable, hparts.1.1.1, hparts.1.1.2, hparts.1.2, hparts.2, hmem,
          fun w hw => sorted_le_getLast hsortedf hlast hw⟩
  · constructor
    · intro he
      unfold get_newest_stable_version at he
      dsimp only at he
      cases hlast : ((list_versions dir).filter isStableVersion).getLast? with
      | none => exact List.getLast?_eq_none_iff.mp hlast
      | some u => rw [hlast] at he; cases he
    · intro hnil
      unfold get_newest_stable_version
      dsimp only
      rw [hnil]
      rfl

/-- Witness for C6 on a store holding one stable and one dev version. -/
theorem newest_stable_version_spec_witness :
    isStableVersion "1.0.0" = true ∧
    "1.0.0" ∈ (list_versions (some ["1.0.0", "1.1.0-dev"])).filter isStableVersion := by
  have h := (newest_stable_version_spec (some ["1.0.0", "1.1.0-dev"])).1 "1.0.0" rfl
  exact ⟨h.1, h.2.2.2.2.2.1⟩

/-- The validation contract as worded by the specification: the expected list
of missing-required error fields for a parsed event document, used to compare
`validate_event` against the spec. -/
def specExpectedErrorFields (event : Json) : List String :=
  (match jsonGet event "metadata" with
   | none => ["metadata"]
   | some metadata =>
       (match (jsonGet metadata "event_class").bind jsonAsStr with
        | some _ => []
        | none => ["metadata.event_class"]) ++
       (if (jsonGet metadata "version").isNone then ["metadata.version"] else []))
  ++ (if (jsonGet event "time").isNone then ["time"] else [])

/-- C4: `validate_event` produces exactly the missing-required errors of the
fixed contract and nothing else, all of kind `MissingRequired`; validity holds
exactly when the error list is empty; the captured class and the summary are
as specified; and the empty object yields exactly the two errors `metadata`
and `time`. -/
theorem validate_event_contract (event : Json) :
    (validate_event event).errors.map (fun e => e.field) = specExpectedErrorFields event ∧
    (∀ e ∈ (validate_event event).errors, e.error_type = .MissingRequired) ∧
    ((validate_event event).is_valid = true ↔ (validate_event event).errors = []) ∧
    (validate_event event).event_class =
      (jsonGet event "metadata").bind (fun m => (jsonGet m "event_class").bind jsonAsStr) ∧
    (validate_event event).warnings = [] ∧
    ((validate_event event).is_valid = true →
      (validate_event event).summary =
        "Valid OCSF event of class \x27" ++
          ((validate_event event).event_class.getD "unknown") ++ "\x27") ∧
    ((validate_event event).is_valid = false →
      (validate_event event).summary =
        "Validation failed with " ++ toString (validate_event event).errors.length ++
          " error(s)") ∧
    ((validate_event (Json.obj [])).errors.map (fun e => e.field) = ["metadata", "time"] ∧
      (validate_event (Json.obj [])).is_valid = false) := by
  have hinst : (validate_event (Json.obj [])).errors.map (fun e => e.field) =
      ["metadata", "time"] ∧ (validate_event (Json.obj [])).is_valid = false := ⟨rfl, rfl⟩
  refine ⟨?_, ?_, ?_, ?_, ?_, ?_, ?_, hinst⟩ <;>
    ( simp only [validate_event, specExpectedErrorFields]
      cases hm : jsonGet event "metadata" with
      | none =>
          cases ht : (jsonGet event "time").isNone <;>
            simp [ValidationReport.new, ValidationReport.add_error, hm, ht]
      | some metadata =>
          cases hec : (jsonGet metadata "event_class").bind jsonAsStr with
          | none =>
              cases hver : (jsonGet metadata "version").isNone <;>
                cases ht : (jsonGet event "time").isNone <;>
                  simp [ValidationReport.new, ValidationReport.add_error, hm, hec, hver, ht]
          | some ec =>
              cases hver : (jsonGet metadata "version").isNone <;>
                cases ht : (jsonGet event "time").isNone <;>
                  simp [ValidationReport.new, ValidationReport.add_error, hm, hec, hver, ht] )

/-- Witness for C4: a well-formed event is reported valid with the specified
summary. -/
theorem validate_event_contract_witness :
    (validate_event (Json.obj
      [("metadata", .obj [("event_class", .str "authentication"), ("version", .str "1")]),
       ("time", .str "t")])).summary = "Valid OCSF event of class \x27authentication\x27" := by
  have h := validate_event_contract (Json.obj
    [("metadata", .obj [("event_class", .str "authentication"), ("version", .str "1")]),
     ("time", .str "t")])
  exact (h.2.2.2.2.2.1 rfl).trans rfl

/-! ## Field-source lemmas for the generator -/

theorem parseRequiredFields_error_shape {p : JsonObjSource} {now : String} {uid : Nat}
    {raw : String} {e : GenError}
    (h : parseRequiredFields p now uid raw = .error e) :
    ∃ msg, e = GenError.invalidFieldSource "required_fields" msg := by
  unfold parseRequiredFields at h
  split at h
  · cases hp : p raw with
    | ok l => rw [hp] at h; cases h
    | error msg =>
        rw [hp] at h
        injection h with h'
        exact ⟨msg, h'.symm⟩
  · cases h

theorem parseOptionalFields_error_shape {p : JsonObjSource} {opt : Option String}
    {e : GenError} (h : parseOptionalFields p opt = .error e) :
    ∃ msg, e = GenError.invalidFieldSource "optional_fields" msg := by
  unfold parseOptionalFields at h
  cases opt with
  | none => cases h
  | some o =>
      dsimp only at h
      split at h
      · cases hp : p o with
        | ok l => rw [hp] at h; cases h
        | error msg =>
            rw [hp] at h
            injection h with h'
            exact ⟨msg, h'.symm⟩
      · cases h

theorem keysNodup_normalizeMap (l : List (String × Json)) : keysNodup (normalizeMap l) :=
  keysNodup_insertList l [] (by simp [keysNodup])

theorem keysNodup_commaListFields (d : String → Json) (raw : String) :
    keysNodup (commaListFields d raw) := by
  unfold commaListFields
  generalize ((splitComma raw).map strTrim) = names
  have haux : ∀ (ns : List String) (acc : List (String × Json)), keysNodup acc →
      keysNodup (ns.foldl
        (fun acc n => if n = "" then acc else assocInsert acc n (d n)) acc) := by
    intro ns
    induction ns with
    | nil => intro acc hacc; simpa using hacc
    | cons hd tl ih =>
        intro acc hacc
        simp only [List.foldl_cons]
        by_cases hhd : hd = ""
        · rw [if_pos hhd]
          exact ih acc hacc
        · rw [if_neg hhd]
          exact ih _ (keysNodup_assocInsert _ _ hacc)
  exact haux names [] (by simp [keysNodup])

theorem parseRequiredFields_ok_nodup {p : JsonObjSource} {now : String} {uid : Nat}
    {raw : String} {rm : List (String × Json)}
    (h : parseRequiredFields p now uid raw = .ok rm) : keysNodup rm := by
  unfold parseRequiredFields at h
  split at h
  · cases hp : p raw with
    | ok l =>
        rw [hp] at h
        injection h with h'
        rw [← h']
        exact keysNodup_normalizeMap l
    | error msg => rw [hp] at h; cases h
  · injection h with h'
    rw [← h']
    exact keysNodup_commaListFields _ _

theorem parseOptionalFields_ok_nodup {p : JsonObjSource} {opt : Option String}
    {om : List (String × Json)} (h : parseOptionalFields p opt = .ok om) :
    keysNodup om := by
  unfold parseOptionalFields at h
  cases opt with
  | none =>
      injection h with h'
      rw [← h']
      simp [keysNodup]
  | some o =>
      dsimp only at h
      split at h
      · cases hp : p o with
        | ok l =>
            rw [hp] at h
            injection h with h'
            rw [← h']
            exact keysNodup_normalizeMap l
        | error msg => rw [hp] at h; cases h
      · injection h with h'
        rw [← h']
        exact keysNodup_commaListFields _ _

/-- Lookup in the merged field map: the optional source wins, then the
required source. -/
theorem lookup_merged {rm om : List (String × Json)} (hr : keysNodup rm)
    (ho : keysNodup om) (k : String) :
    assocLookup (insertList (insertList [] rm) om) k =
      match assocLookup om k with
      | some v => some v
      | none => assocLookup rm k := by
  rw [assocLookup_insertList, assocLookup_reverse_of_nodup ho]
  cases assocLookup om k with
  | some v => simp
  | none =>
      rw [assocLookup_insertList, assocLookup_reverse_of_nodup hr]
      cases assocLookup rm k <;> simp [assocLookup]

/-- C2: `generate_ocsf_event` fails with the class-not-found error exactly
when the requested class is absent from the loaded schema; on success the
required map is merged first and the optional map second (optional wins on
shared keys, untouched required keys survive); a missing `time` key is filled
with the current UTC timestamp, so every generated event carries `time`. -/
theorem generate_event_algorithm (store : List (String × OcsfSchema)) (p : JsonObjSource)
    (now fresh_uid : String) (request : GenerateEventRequest) (schema : OcsfSchema)
    (hs : load_version store (request.version.getD "1.7.0-dev") = .ok schema) :
    ((generate_ocsf_event store p now fresh_uid request =
        .error (.eventClassNotFound request.event_class)) ↔
      assocLookup schema.classes request.event_class = none) ∧
    (∀ ec rm om ev,
      assocLookup schema.classes request.event_class = some ec →
      parseRequiredFields p now ec.uid request.required_fields = .ok rm →
      parseOptionalFields p request.optional_fields = .ok om →
      generate_ocsf_event store p now fresh_uid request = .ok ev →
      (∀ k v, assocLookup om k = some v → assocLookup ev.fields k = some v) ∧
      (∀ k v, assocLookup om k = none → assocLookup rm k = some v →
        assocLookup ev.fields k = some v) ∧
      (assocLookup rm "time" = none → assocLookup om "time" = none →
        assocLookup ev.fields "time" = some (.str now))) ∧
    (∀ ev, generate_ocsf_event store p now fresh_uid request = .ok ev →
      (assocLookup ev.fields "time").isSome = true) := by
  refine ⟨?_, ?_, ?_⟩
  · unfold generate_ocsf_event
    dsimp only
    rw [hs]
    dsimp only
    cases hcls : assocLookup schema.classes request.event_class with
    | none => simp
    | some ec =>
        simp only [iff_false, Option.some_ne_none, ne_eq]
        cases hreq : parseRequiredFields p now ec.uid request.required_fields with
        | error e =>
            obtain ⟨msg, rfl⟩ := parseRequiredFields_error_shape hreq
            simp
        | ok rm =>
            dsimp only
            cases hopt : parseOptionalFields p request.optional_fields with
            | error e =>
                obtain ⟨msg, rfl⟩ := parseOptionalFields_error_shape hopt
                simp
            | ok om => simp
  · intro ec rm om ev hcls hreq hopt hok
    obtain ⟨schema', ec', rm', om', hs', hcls', hreq', hopt', hmeta, hfields⟩ :=
      generate_ok_elim hok
    rw [hs] at hs'
    injection hs' with hss
    rw [← hss] at hcls'
    rw [hcls] at hcls'
    injection hcls' with hecc
    rw [← hecc] at hreq'
    rw [hreq] at hreq'
    injection hreq' with hrm
    rw [hopt] at hopt'
    injection hopt' with hom
    rw [← hrm, ← hom] at hfields
    have hrn : keysNodup rm := parseRequiredFields_ok_nodup hreq
    have hon : keysNodup om := parseOptionalFields_ok_nodup hopt
    have hmerge := fun k => lookup_merged hrn hon k
    refine ⟨?_, ?_, ?_⟩
    · intro k v hov
      rw [hfields]
      split
      · next htime =>
          rw [assocLookup_assocInsert]
          by_cases hk : "time" = k
          · exfalso
            rw [← hk] at hov
            rw [Option.isNone_iff_eq_none] at htime
            rw [hmerge "time", hov] at htime
            cases htime
          · rw [if_neg hk, hmerge k, hov]
      · rw [hmerge k, hov]
    · intro k v hon2 hrv
      rw [hfields]
      split
      · next htime =>
          rw [assocLookup_assocInsert]
          by_cases hk : "time" = k
          · exfalso
            rw [Option.isNone_iff_eq_none] at htime
            rw [hmerge "time"] at htime
            rw [← hk] at hon2 hrv
            rw [hon2] at htime
            dsimp only at htime
            rw [hrv] at htime
            cases htime
          · rw [if_neg hk, hmerge k, hon2]
            exact hrv
      · rw [hmerge k, hon2]
        exact hrv
    · intro hrt hot
      rw [hfields]
      have hf2 : assocLookup (insertList (insertList [] rm) om) "time" = none := by
        rw [hmerge "time", hot]
        exact hrt
      rw [if_pos (by rw [hf2]; rfl)]
      rw [assocLookup_assocInsert]
      simp
  · intro ev hok
    obtain ⟨schema', ec', rm', om', hs', hcls', hreq', hopt', hmeta, hfields⟩ :=
      generate_ok_elim hok
    rw [hfields]
    split
    · next htime =>
        rw [assocLookup_assocInsert]
        simp
    · next htime =>
        cases hf : assocLookup (insertList (insertList [] rm') om') "time" with
        | none => exact absurd (by rw [hf]; rfl) htime
        | some v => simp

/-- Witness for C2: with required source `"a,b"` and optional source
`"b,message"`, the optional `message` entry survives the merge and `time` is
injected. -/
theorem generate_event_algorithm_witness :
    assocLookup (eventOrDefault (generate_ocsf_event [] nullObjSource "T" "U"
      { version := none, event_class := "authentication"
        required_fields := "a,b", optional_fields := some "b,message" })).fields "message" =
      some (.str "Generated OCSF event") ∧
    assocLookup (eventOrDefault (generate_ocsf_event [] nullObjSource "T" "U"
      { version := none, event_class := "authentication"
        required_fields := "a,b", optional_fields := some "b,message" })).fields "time" =
      some (.str "T") := by
  have h := (generate_event_algorithm [] nullObjSource "T" "U"
    { version := none, event_class := "authentication"
      required_fields := "a,b", optional_fields := some "b,message" } minimal_schema rfl).2.1
    { uid := 3002, name := "authentication", caption := some "Authentication"
      description := some "User authentication events (login, logout, failed attempts)"
      category := "iam" }
    [("a", Json.str "default_a"), ("b", Json.str "default_b")]
    [("b", Json.str "default_b"), ("message", Json.str "Generated OCSF event")]
    (eventOrDefault (generate_ocsf_event [] nullObjSource "T" "U"
      { version := none, event_class := "authentication"
        required_fields := "a,b", optional_fields := some "b,message" }))
    rfl rfl rfl rfl
  exact ⟨h.1 "message" (Json.str "Generated OCSF event") rfl, h.2.2 rfl rfl⟩

/-- C3 counterexample: the two field sources do not share one default table.
A bare `message` in the required source yields the string
`"default_message"`, not `"Generated OCSF event"`; a bare `activity_id` in
the optional source yields the string `"default_activity_id"`, not the
number 1. -/
theorem single_default_table_counterexample :
    assocLookup (eventOrDefault (generate_ocsf_event [] nullObjSource "T" "U"
      { version := none, event_class := "authentication"
        required_fields := "message", optional_fields := some "activity_id" })).fields
        "message" = some (Json.str "default_message") ∧
    assocLookup (eventOrDefault (generate_ocsf_event [] nullObjSource "T" "U"
      { version := none, event_class := "authentication"
        required_fields := "message", optional_fields := some "activity_id" })).fields
        "activity_id" = some (Json.str "default_activity_id") ∧
    Json.str "default_message" ≠ Json.str "Generated OCSF event" ∧
    Json.str "default_activity_id" ≠ Json.num 1 := by
  refine ⟨rfl, rfl, by simp, ?_⟩
  intro h
  cases h

/-- Lookup of a bare name in the comma-list branch yields its synthesized
default. -/
theorem lookup_commaListFields (d : String → Json) (raw : String) {n : String}
    (hmem : n ∈ (splitComma raw).map strTrim) (hne : n ≠ "") :
    assocLookup (commaListFields d raw) n = some (d n) := by
  unfold commaListFields
  have haux : ∀ (ns : List String) (acc : List (String × Json)),
      assocLookup (ns.foldl
        (fun acc n => if n = "" then acc else assocInsert acc n (d n)) acc) n =
        if n ∈ ns ∧ n ≠ "" then some (d n) else assocLookup acc n := by
    intro ns
    induction ns with
    | nil => intro acc; simp
    | cons hd tl ih =>
        intro acc
        simp only [List.foldl_cons]
        rw [ih]
        by_cases hmem2 : n ∈ tl ∧ n ≠ ""
        · rw [if_pos hmem2, if_pos ⟨List.mem_cons_of_mem hd hmem2.1, hmem2.2⟩]
        · rw [if_neg hmem2]
          by_cases hhd : hd = ""
          · rw [if_pos hhd]
            by_cases hcond : n ∈ hd :: tl ∧ n ≠ ""
            · rcases List.mem_cons.mp hcond.1 with heq | hmem3
              · exact absurd (heq.trans hhd) hcond.2
              · exact absurd ⟨hmem3, hcond.2⟩ hmem2
            · rw [if_neg hcond]
          · rw [if_neg hhd, assocLookup_assocInsert]
            by_cases heq : hd = n
            · subst heq
              rw [if_pos rfl, if_pos ⟨List.mem_cons_self hd tl, hhd⟩]
            · rw [if_neg heq]
              have hcond : ¬(n ∈ hd :: tl ∧ n ≠ "") := by
                rintro ⟨hmem3, hne3⟩
                rcases List.mem_cons.mp hmem3 with heq2 | hmem4
                · exact heq heq2.symm
                · exact hmem2 ⟨hmem4, hne3⟩
              rw [if_neg hcond]
  rw [haux]
  rw [if_pos ⟨hmem, hne⟩]

/-- C3 amended: each field source has its own default table.  The required
source synthesizes `activity_id→1`, `severity_id→1`,
`category_uid→classUid/1000`, `class_uid→classUid`, `type_uid→classUid*100+1`
(32-bit), `time→now`, and `"default_<name>"` for every other name, `message`
and `user` included; the optional source synthesizes
`message→"Generated OCSF event"`, `user→{name,uid}`, and `"default_<name>"`
for everything else, `activity_id` and `time` included.  Every bare name of a
comma-list source reaches the generated event with its synthesized default. -/
theorem per_source_default_tables :
    (∀ now uid,
      requiredDefaultValue now uid "activity_id" = .num 1 ∧
      requiredDefaultValue now uid "severity_id" = .num 1 ∧
      requiredDefaultValue now uid "category_uid" = .num (uid / 1000) ∧
      requiredDefaultValue now uid "class_uid" = .num uid ∧
      requiredDefaultValue now uid "type_uid" = .num ((uid * 100 + 1) % 4294967296) ∧
      requiredDefaultValue now uid "time" = .str now ∧
      requiredDefaultValue now uid "message" = .str "default_message" ∧
      requiredDefaultValue now uid "user" = .str "default_user") ∧
    (optionalDefaultValue "message" = .str "Generated OCSF event" ∧
      optionalDefaultValue "user" =
        .obj [("name", .str "example_user"), ("uid", .str "1001")] ∧
      optionalDefaultValue "activity_id" = .str "default_activity_id" ∧
      optionalDefaultValue "time" = .str "default_time") ∧
    (∀ store p now fresh_uid cls raw ev schema ec,
      headIsBrace (strTrim raw) = false →
      generate_ocsf_event store p now fresh_uid
        { version := none, event_class := cls, required_fields := raw
          optional_fields := none } = .ok ev →
      load_version store "1.7.0-dev" = .ok schema →
      assocLookup schema.classes cls = some ec →
      ∀ n, n ∈ (splitComma raw).map strTrim → n ≠ "" →
        assocLookup ev.fields n = some (requiredDefaultValue now ec.uid n)) ∧
    (∀ store p now fresh_uid cls oraw ev,
      headIsBrace (strTrim oraw) = false →
      generate_ocsf_event store p now fresh_uid
        { version := none, event_class := cls, required_fields := ""
          optional_fields := some oraw } = .ok ev →
      ∀ n, n ∈ (splitComma oraw).map strTrim → n ≠ "" →
        assocLookup ev.fields n = some (optionalDefaultValue n)) := by
  refine ⟨fun now uid => ⟨rfl, rfl, rfl, rfl, rfl, rfl, rfl, rfl⟩,
    ⟨rfl, rfl, rfl, rfl⟩, ?_, ?_⟩
  · intro store p now fresh_uid cls raw ev schema ec hbrace hok hs hcls n hmem hne
    obtain ⟨schema', ec', rm', om', hs', hcls', hreq', hopt', -, hfields⟩ :=
      generate_ok_elim hok
    dsimp only at hs' hcls' hreq' hopt'
    simp only [Option.getD_none] at hs'
    rw [hs] at hs'
    injection hs' with hss
    rw [← hss] at hcls'
    rw [hcls] at hcls'
    injection hcls' with hecc
    rw [← hecc] at hreq'
    unfold parseRequiredFields at hreq'
    rw [hbrace] at hreq'
    simp only [Bool.false_eq_true, if_false] at hreq'
    injection hreq' with hrm
    have hom : om' = [] := by
      unfold parseOptionalFields at hopt'
      injection hopt' with h'
      exact h'.symm
    rw [hom, ← hrm] at hfields
    have hrn : keysNodup (commaListFields (requiredDefaultValue now ec.uid) raw) :=
      keysNodup_commaListFields _ _
    have hlook : ∀ k, assocLookup
        (insertList (insertList [] (commaListFields (requiredDefaultValue now ec.uid) raw)) [])
        k = assocLookup (commaListFields (requiredDefaultValue now ec.uid) raw) k := by
      intro k
      rw [show insertList (insertList []
        (commaListFields (requiredDefaultValue now ec.uid) raw)) [] =
        insertList [] (commaListFields (requiredDefaultValue now ec.uid) raw) from rfl]
      rw [assocLookup_insertList, assocLookup_reverse_of_nodup hrn]
      cases assocLookup (commaListFields (requiredDefaultValue now ec.uid) raw) k <;>
        simp [assocLookup]
    have hbase := lookup_commaListFields (requiredDefaultValue now ec.uid) raw hmem hne
    rw [hfields]
    split
    · next htime =>
        rw [assocLookup_assocInsert]
        by_cases hk : "time" = n
        · rw [if_pos hk]
          rw [← hk] at hbase
          have : requiredDefaultValue now ec.uid "time" = .str now := rfl
          rw [← hk, this]
        · rw [if_neg hk, hlook n, hbase]
    · rw [hlook n, hbase]
  · intro store p now fresh_uid cls oraw ev hbrace hok n hmem hne
    obtain ⟨schema', ec', rm', om', hs', hcls', hreq', hopt', -, hfields⟩ :=
      generate_ok_elim hok
    dsimp only at hs' hcls' hreq' hopt'
    have hrm : rm' = [] := by
      unfold parseRequiredFields at hreq'
      rw [show headIsBrace (strTrim "") = false from rfl] at hreq'
      simp only [Bool.false_eq_true, if_false] at hreq'
      injection hreq' with h'
      rw [← h']
      rfl
    unfold parseOptionalFields at hopt'
    dsimp only at hopt'
    rw [hbrace] at hopt'
    simp only [Bool.false_eq_true, if_false] at hopt'
    injection hopt' with hom
    rw [hrm, ← hom] at hfields
    have hon : keysNodup (commaListFields optionalDefaultValue oraw) :=
      keysNodup_commaListFields _ _
    have hlook : ∀ k, assocLookup
        (insertList (insertList [] []) (commaListFields optionalDefaultValue oraw)) k =
        assocLookup (commaListFields optionalDefaultValue oraw) k := by
      intro k
      rw [show insertList (insertList ([] : List (String × Json)) []) = insertList [] from rfl]
      rw [assocLookup_insertList, assocLookup_reverse_of_nodup hon]
      cases assocLookup (commaListFields optionalDefaultValue oraw) k <;>
        simp [assocLookup]
    have hbase := lookup_commaListFields optionalDefaultValue oraw hmem hne
    rw [hfields]
    split
    · next htime =>
        rw [assocLookup_assocInsert]
        by_cases hk : "time" = n
        · exfalso
          rw [Option.isNone_iff_eq_none] at htime
          rw [hlook "time"] at htime
          rw [← hk] at hbase
          rw [hbase] at htime
          cases htime
        · rw [if_neg hk, hlook n, hbase]
    · rw [hlook n, hbase]

/-- Witness for C3 amended: in one request, the required bare names `message`
and `type_uid` and the optional bare names `user` and `severity_id` each get
the default of their own source table. -/
theorem per_source_default_tables_witness :
    assocLookup (eventOrDefault (generate_ocsf_event [] nullObjSource "T" "U"
      { version := none, event_class := "authentication"
        required_fields := "message,type_uid", optional_fields := none })).fields
      "type_uid" = some (Json.num 300201) ∧
    assocLookup (eventOrDefault (generate_ocsf_event [] nullObjSource "T" "U"
      { version := none, event_class := "authentication"
        required_fields := "", optional_fields := some "user,severity_id" })).fields
      "severity_id" = some (Json.str "default_severity_id") := by
  constructor
  · have h := (per_source_default_tables).2.2.1 [] nullObjSource "T" "U" "authentication"
      "message,type_uid"
      (eventOrDefault (generate_ocsf_event [] nullObjSource "T" "U"
        { version := none, event_class := "authentication"
          required_fields := "message,type_uid", optional_fields := none }))
      minimal_schema
      { uid := 3002, name := "authentication", caption := some "Authentication"
        description := some "User authentication events (login, logout, failed attempts)"
        category := "iam" }
      rfl rfl rfl rfl "type_uid" (by decide)
      (by simp)
    exact h.trans rfl
  · have h := (per_source_default_tables).2.2.2 [] nullObjSource "T" "U" "authentication"
      "user,severity_id"
      (eventOrDefault (generate_ocsf_event [] nullObjSource "T" "U"
        { version := none, event_class := "authentication"
          required_fields := "", optional_fields := some "user,severity_id" }))
      rfl rfl "severity_id" (by decide)
      (by simp)
    exact h.trans rfl

/-! ## Category grouping -/

/-- The class names a correct grouping assigns to category `cat`: every class
except `base_event` whose category tag is `cat`, in schema order. -/
def categoryMembers (classes : List (String × EventClass)) (cat : String) : List String :=
  (classes.filter fun nc =>
    decide (nc.1 ≠ "base_event") && decide (nc.2.category = cat)).map Prod.fst

theorem assocLookup_pushCategory (acc : List (String × List String)) (cat cls cat' : String) :
    assocLookup (pushCategory acc cat cls) cat' =
      if cat = cat' then some ((assocLookup acc cat').getD [] ++ [cls])
      else assocLookup acc cat' := by
  induction acc with
  | nil => by_cases h : cat = cat' <;> simp [pushCategory, assocLookup, h]
  | cons hd tl ih =>
      obtain ⟨c, ns⟩ := hd
      by_cases hc : c = cat
      · subst hc
        simp only [pushCategory, if_pos rfl]
        by_cases hc' : c = cat'
        · subst hc'
          simp [assocLookup]
        · simp [assocLookup, hc', fun h => hc' h]
      · simp only [pushCategory, if_neg hc]
        by_cases hc' : c = cat'
        · subst hc'
          have hne : ¬ c = cat := hc
          have hne' : ¬ cat = c := fun h => hc h.symm
          simp [assocLookup, hne']
        · simp [assocLookup, hc', ih]

theorem mem_keys_pushCategory (acc : List (String × List String)) (cat cls a : String) :
    a ∈ (pushCategory acc cat cls).map Prod.fst ↔ a ∈ acc.map Prod.fst ∨ a = cat := by
  induction acc with
  | nil => simp [pushCategory]
  | cons hd tl ih =>
      obtain ⟨c, ns⟩ := hd
      by_cases hc : c = cat
      · subst hc
        simp [pushCategory]
        tauto
      · simp only [pushCategory, if_neg hc, List.map_cons, List.mem_cons, ih]
        tauto

theorem keysNodup_pushCategory {acc : List (String × List String)} (cat cls : String)
    (h : keysNodup acc) : keysNodup (pushCategory acc cat cls) := by
  induction acc with
  | nil => simp [keysNodup, pushCategory]
  | cons hd tl ih =>
      obtain ⟨c, ns⟩ := hd
      simp only [keysNodup, List.map_cons, List.nodup_cons] at h
      by_cases hc : c = cat
      · subst hc
        simpa [keysNodup, pushCategory] using h
      · have ih' := ih h.2
        simp only [keysNodup, pushCategory, if_neg hc, List.map_cons, List.nodup_cons]
        refine ⟨?_, ih'⟩
        rw [mem_keys_pushCategory]
        rintro (hmem | rfl)
        · exact h.1 hmem
        · exact hc rfl

theorem assocLookup_buildCategoryAux (cat : String) :
    ∀ (classes : List (String × EventClass)) (acc : List (String × List String)),
      assocLookup (classes.foldl
        (fun acc nc =>
          if nc.1 = "base_event" then acc else pushCategory acc nc.2.category nc.1) acc) cat =
        if (assocLookup acc cat).isSome = true ∨ categoryMembers classes cat ≠ [] then
          some ((assocLookup acc cat).getD [] ++ categoryMembers classes cat)
        else none := by
  intro classes
  induction classes with
  | nil =>
      intro acc
      cases h : assocLookup acc cat <;> simp [categoryMembers, h]
  | cons nc rest ih =>
      intro acc
      simp only [List.foldl_cons]
      by_cases hb : nc.1 = "base_event"
      · rw [if_pos hb, ih]
        have hmembers : categoryMembers (nc :: rest) cat = categoryMembers rest cat := by
          simp [categoryMembers, List.filter_cons, hb]
        rw [hmembers]
      · rw [if_neg hb, ih]
        by_cases hcat : nc.2.category = cat
        · have hmembers : categoryMembers (nc :: rest) cat = nc.1 :: categoryMembers rest cat := by
            simp [categoryMembers, List.filter_cons, hb, hcat]
          have hacc : assocLookup (pushCategory acc nc.2.category nc.1) cat =
              some ((assocLookup acc cat).getD [] ++ [nc.1]) := by
            rw [assocLookup_pushCategory, if_pos hcat]
          rw [hmembers, hacc]
          have hcondL : (some ((assocLookup acc cat).getD [] ++ [nc.1])).isSome = true ∨
              categoryMembers rest cat ≠ [] := Or.inl rfl
          have hcondR : (assocLookup acc cat).isSome = true ∨
              nc.1 :: categoryMembers rest cat ≠ [] := Or.inr (by simp)
          rw [if_pos hcondL, if_pos hcondR]
          simp
        · have hmembers : categoryMembers (nc :: rest) cat = categoryMembers rest cat := by
            simp [categoryMembers, List.filter_cons, hb, hcat]
          have hacc : assocLookup (pushCategory acc nc.2.category nc.1) cat =
              assocLookup acc cat := by
            rw [assocLookup_pushCategory, if_neg hcat]
          rw [hmembers, hacc]

theorem assocLookup_buildCategoryMap (classes : List (String × EventClass)) (cat : String) :
    assocLookup (buildCategoryMap classes) cat =
      if categoryMembers classes cat = [] then none
      else some (categoryMembers classes cat) := by
  unfold buildCategoryMap
  rw [assocLookup_buildCategoryAux]
  by_cases h : categoryMembers classes cat = [] <;>
    simp [assocLookup, h]

theorem keysNodup_buildCategoryMap (classes : List (String × EventClass)) :
    keysNodup (buildCategoryMap classes) := by
  unfold buildCategoryMap
  have haux : ∀ (cs : List (String × EventClass)) (acc : List (String × List String)),
      keysNodup acc →
      keysNodup (cs.foldl
        (fun acc nc =>
          if nc.1 = "base_event" then acc else pushCategory acc nc.2.category nc.1) acc) := by
    intro cs
    induction cs with
    | nil => intro acc hacc; simpa using hacc
    | cons nc rest ih =>
        intro acc hacc
        simp only [List.foldl_cons]
        by_cases hb : nc.1 = "base_event"
        · rw [if_pos hb]
          exact ih acc hacc
        · rw [if_neg hb]
          exact ih _ (keysNodup_pushCategory _ _ hacc)
  exact haux classes [] (by simp [keysNodup])

/-- C8 counterexample: the grouping loop iterates a `HashMap` whose order is
never sorted; with `network_activity` stored before `authentication` the
output lists category `network` before `iam`, which is not sorted by category
name. -/
theorem list_categories_not_sorted_counterexample :
    (list_categories
      { version := "v"
        classes :=
          [ ("network_activity",
             { uid := 4001, name := "network_activity", category := "network" })
          , ("authentication",
             { uid := 3002, name := "authentication", category := "iam" }) ] }).map
      (fun c => c.name) = ["network", "iam"] ∧
    ¬ List.Pairwise (fun a b : CategorySummary => strLeB a.name b.name = true)
      (list_categories
        { version := "v"
          classes :=
            [ ("network_activity",
               { uid := 4001, name := "network_activity", category := "network" })
            , ("authentication",
               { uid := 3002, name := "authentication", category := "iam" }) ] }) := by
  exact ⟨rfl, by decide⟩

/-- C8 amended: `list_categories` groups all classes by category tag
excluding `base_event`; each description comes from the fixed table (with the
`Category: <name>` fallback inside `get_category_description`); each event
count equals the number of listed class names; each category appears exactly
once, carrying exactly the member classes in schema order — but the output
order is the hash-map iteration order, which the code does not sort. -/
theorem list_categories_grouping (schema : OcsfSchema) :
    (∀ c ∈ list_categories schema,
      c.description = get_category_description c.name ∧
      c.event_count = c.event_classes.length) ∧
    ((list_categories schema).map (fun c => c.name)).Nodup ∧
    (∀ cat ns,
      (∃ c ∈ list_categories schema, c.name = cat ∧ c.event_classes = ns) ↔
      (ns = categoryMembers schema.classes cat ∧ ns ≠ [])) := by
  refine ⟨?_, ?_, ?_⟩
  · intro c hc
    obtain ⟨p, hp, rfl⟩ := List.mem_map.mp hc
    exact ⟨rfl, rfl⟩
  · have hmap : (list_categories schema).map (fun c => c.name) =
        (buildCategoryMap schema.classes).map Prod.fst := by
      unfold list_categories
      rw [List.map_map]
      rfl
    rw [hmap]
    exact keysNodup_buildCategoryMap schema.classes
  · intro cat ns
    constructor
    · rintro ⟨c, hc, hname, hns⟩
      obtain ⟨p, hp, rfl⟩ := List.mem_map.mp hc
      dsimp only at hname hns
      rw [← hname, ← hns]
      have hlook := (mem_iff_assocLookup_of_nodup
        (keysNodup_buildCategoryMap schema.classes) p.1 p.2).mp hp
      rw [assocLookup_buildCategoryMap] at hlook
      by_cases hmem : categoryMembers schema.classes p.1 = []
      · rw [if_pos hmem] at hlook
        cases hlook
      · rw [if_neg hmem] at hlook
        injection hlook with hlook'
        exact ⟨hlook'.symm, by rw [← hlook']; exact hmem⟩
    · rintro ⟨hns, hne⟩
      have hlook : assocLookup (buildCategoryMap schema.classes) cat = some ns := by
        rw [assocLookup_buildCategoryMap, ← hns, if_neg hne]
      have hpmem : (cat, ns) ∈ buildCategoryMap schema.classes :=
        (mem_iff_assocLookup_of_nodup
          (keysNodup_buildCategoryMap schema.classes) cat ns).mpr hlook
      refine ⟨{ name := cat, description := get_category_description cat
                event_count := ns.length, event_classes := ns }, ?_, rfl, rfl⟩
      unfold list_categories
      exact List.mem_map.mpr ⟨(cat, ns), hpmem, rfl⟩

/-- Witness for C8 amended on the minimal schema: the `system` category
groups exactly `process_activity` and `file_activity`. -/
theorem list_categories_grouping_witness :
    ∃ c ∈ list_categories minimal_schema, c.name = "system" ∧
      c.event_classes = ["process_activity", "file_activity"] :=
  ((list_categories_grouping minimal_schema).2.2 "system"
    ["process_activity", "file_activity"]).mpr ⟨rfl, by simp⟩

end Ocsf
